import Mathlib

/-!
Verification of the zerr stack-capture / dedup-cache core.

The Go source is shallowly embedded below:
* `captureStack` models the pooled-buffer capture with single doubling
  (`getOrCreateStack` lines 130-147 of the stack file).
* `fingerprint` models the inline hash `hash = hash*31 + pc` over `uintptr`
  (64-bit, hence the explicit `% 2^64`), seed 17 (lines 150-153).
* `stackMatches`, `scanChain`, `rescanCompact`, `insertStack`,
  `getOrCreateStackPCs`, `getOrCreateStack` model the dedup cache
  (lines 122-244).  The Go map `map[uintptr][]weak.Pointer[stackCacheEntry]`
  is modelled as an association list; a weak pointer is `Option stackCacheEntry`
  (`none` = the referent was garbage collected).  Pointer identity of entries is
  modelled by the `id` field (fresh at each allocation).  Each operation also
  returns the list of observable events (pool, lock, map and comparison events)
  in source order, so that locking and buffer-pool discipline can be stated.
  Other goroutines may mutate the cache while this one holds no lock — between
  the `RUnlock` and the `Lock`; the `interfere` parameter models that window,
  and purely sequential executions take `interfere = fun m => m`.
* `formatStackTrace`, `StackTrace`, `formatStack`, `Format`, `logFields`,
  `LogValue` model the lazy formatter and the log/format consumers
  (`log.go` and the error-type file).  The runtime's frame resolution
  (`runtime.CallersFrames`) is an abstract parameter `resolve`; models that
  can invoke it also return the number of resolution passes they performed.
-/

namespace Zerr

/-- A cached stack entry (`stackCacheEntry` in the source): the permanently
owned pc sequence, the lazily-computed formatted text ("" = absent, the Go
zero value) and the `sync.Once` state.  `id` models pointer identity. -/
structure stackCacheEntry where
  id : Nat
  pc : List Nat
  formatted : String
  onceDone : Bool
deriving DecidableEq, Repr

/-- A weak pointer to a stack entry: `none` once the referent is collected. -/
abbrev WeakRef := Option stackCacheEntry

/-- One hash bucket: the separate-chaining list of weak references. -/
abbrev Chain := List WeakRef

/-- The global `stackCache` map, as an association list from hash to chain. -/
abbrev CacheMap := List (Nat × Chain)

/-- Go map read `m[k]`: value of the first (unique) binding of `k`. -/
def mapFind (m : CacheMap) (k : Nat) : Option Chain :=
  match m with
  | [] => none
  | (k', v) :: rest => if k' = k then some v else mapFind rest k

/-- Go map write `m[k] = v`: replace the binding of `k`, or add one. -/
def mapSet (m : CacheMap) (k : Nat) (v : Chain) : CacheMap :=
  match m with
  | [] => [(k, v)]
  | (k', v') :: rest => if k' = k then (k, v) :: rest else (k', v') :: mapSet rest k v

/-- Mutable state of the cache subsystem: the bucket map, the next fresh
entry identity, and the capacity of the pooled pc buffer (`pcPool`). -/
structure CacheState where
  stackCache : CacheMap
  nextId : Nat
  poolCap : Nat
deriving DecidableEq, Repr

/-- Observable events of one `getOrCreateStack` call, in source order. -/
inductive Ev where
  | poolGet      -- pcPool.Get()
  | callers      -- runtime.Callers filled the buffer
  | fingerprintEv  -- the hash loop ran over the captured pcs
  | rlock        -- stackCacheMu.RLock()
  | mapRead      -- read of stackCache[hash]
  | runlock      -- stackCacheMu.RUnlock()
  | compareEv    -- one element-by-element comparison of a chain entry
  | copyEv       -- copy(newEntry.pc, pcs)
  | lock         -- stackCacheMu.Lock()
  | mapWrite     -- write of stackCache[hash]
  | unlock       -- stackCacheMu.Unlock()
  | poolPut      -- pcPool.Put()
deriving DecidableEq, Repr

/-- Lines 130-147: take a pooled buffer of capacity `cap`, reset it to full
length, fill it with `runtime.Callers` (which writes `min (depth, length)`
frames of the current stack `frames`); if it came back exactly full, double
it and recapture once; trim to the frames obtained.  Returns the captured
sequence and the capacity of the buffer that will go back to the pool. -/
def captureStack (cap : Nat) (frames : List Nat) : List Nat × Nat :=
  let n := min frames.length cap
  if n = cap then
    let grown := cap * 2
    let n2 := min frames.length grown
    (frames.take n2, grown)
  else
    (frames.take n, cap)

/-- Lines 150-153: `hash = 17; for pc { hash = hash*31 + pc }` over `uintptr`
(64-bit unsigned) arithmetic. -/
def fingerprint (pcs : List Nat) : Nat :=
  pcs.foldl (fun h pc => (h * 31 + pc) % (2 ^ 64)) 17

/-- Lines 234-244: length check, then element-by-element comparison. -/
def stackMatches (cached current : List Nat) : Bool :=
  if cached.length != current.length then false
  else (List.zip cached current).all fun p => p.1 == p.2

/-- Lines 162-175, the read-path chain scan: skip dead weak pointers, return
the first live entry whose pcs match, counting the comparisons performed. -/
def scanChain (chain : Chain) (pcs : List Nat) : Option stackCacheEntry × Nat :=
  match chain with
  | [] => (none, 0)
  | none :: rest => scanChain rest pcs
  | some e :: rest =>
    if stackMatches e.pc pcs then (some e, 1)
    else ((scanChain rest pcs).1, (scanChain rest pcs).2 + 1)

/-- The live entries kept by the write-lock compaction (lines 195-204):
all non-nil weak pointers, in order. -/
def compactChain (chain : Chain) : Chain :=
  match chain with
  | [] => []
  | none :: rest => compactChain rest
  | some e :: rest => some e :: compactChain rest

/-- Lines 192-208, the write-lock rescan: keep the live entries (compaction),
record the first live match (comparisons stop once found, Go's short-circuit
`foundEntry == nil && stackMatches(...)`), and count the comparisons. -/
def rescanCompact (chain : Chain) (pcs : List Nat) :
    Chain × Option stackCacheEntry × Nat :=
  match chain with
  | [] => ([], none, 0)
  | none :: rest => rescanCompact rest pcs
  | some e :: rest =>
    if stackMatches e.pc pcs then (some e :: compactChain rest, some e, 1)
    else (some e :: (rescanCompact rest pcs).1, (rescanCompact rest pcs).2.1,
      (rescanCompact rest pcs).2.2 + 1)

/-- Lines 180-230: the slow path after a read-path miss.  Build the candidate
entry (owned copy of `pcs`) before locking, take the write lock, re-read the
bucket (`interfere` is what other goroutines did to the map while this one was
unlocked), rescan/compact under the lock, and either return the entry another
goroutine inserted or append the candidate.  `evs` is the event prefix of the
read path. -/
def insertStack (pcs : List Nat) (hash : Nat) (newCap : Nat) (st : CacheState)
    (interfere : CacheMap → CacheMap) (evs : List Ev) :
    stackCacheEntry × CacheState × List Ev :=
  let newEntry : stackCacheEntry := ⟨st.nextId, pcs, "", false⟩
  let cache1 := interfere st.stackCache
  match mapFind cache1 hash with
  | some entries =>
    let active := (rescanCompact entries pcs).1
    let k := (rescanCompact entries pcs).2.2
    let cache2 := mapSet cache1 hash active
    match (rescanCompact entries pcs).2.1 with
    | some e =>
      (e, ⟨cache2, st.nextId + 1, newCap⟩,
        evs ++ [Ev.copyEv, Ev.lock, Ev.mapRead] ++ List.replicate k Ev.compareEv
            ++ [Ev.mapWrite, Ev.unlock, Ev.poolPut])
    | none =>
      let cache3 := mapSet cache2 hash (((mapFind cache2 hash).getD []) ++ [some newEntry])
      (newEntry, ⟨cache3, st.nextId + 1, newCap⟩,
        evs ++ [Ev.copyEv, Ev.lock, Ev.mapRead] ++ List.replicate k Ev.compareEv
            ++ [Ev.mapWrite, Ev.mapWrite, Ev.unlock, Ev.poolPut])
  | none =>
    let cache3 := mapSet cache1 hash (((mapFind cache1 hash).getD []) ++ [some newEntry])
    (newEntry, ⟨cache3, st.nextId + 1, newCap⟩,
      evs ++ [Ev.copyEv, Ev.lock, Ev.mapRead, Ev.mapWrite, Ev.unlock, Ev.poolPut])

/-- Lines 149-231: the dedup-cache get-or-create on an already captured
sequence `pcs`.  Hash, read-locked map read, unlocked chain scan (the source
releases the read lock on line 160, before the scan of lines 162-175), then
on a miss the slow path.  `newCap` is the capacity the pooled buffer will
have when it is returned. -/
def getOrCreateStackPCs (pcs : List Nat) (newCap : Nat) (st : CacheState)
    (interfere : CacheMap → CacheMap) : stackCacheEntry × CacheState × List Ev :=
  let hash := fingerprint pcs
  match mapFind st.stackCache hash with
  | some entries =>
    match (scanChain entries pcs).1 with
    | some e =>
      (e, ⟨st.stackCache, st.nextId, newCap⟩,
        [Ev.fingerprintEv, Ev.rlock, Ev.mapRead, Ev.runlock]
          ++ List.replicate (scanChain entries pcs).2 Ev.compareEv ++ [Ev.poolPut])
    | none =>
      insertStack pcs hash newCap st interfere
        ([Ev.fingerprintEv, Ev.rlock, Ev.mapRead, Ev.runlock]
          ++ List.replicate (scanChain entries pcs).2 Ev.compareEv)
  | none =>
    insertStack pcs (fingerprint pcs) newCap st interfere
      [Ev.fingerprintEv, Ev.rlock, Ev.mapRead, Ev.runlock]

/-- Lines 129-231, the whole `getOrCreateStack`: acquire a pooled buffer,
capture the current stack `frames` into it (growing once if exactly full),
then run the dedup cache on the captured sequence. -/
def getOrCreateStack (frames : List Nat) (st : CacheState)
    (interfere : CacheMap → CacheMap) : stackCacheEntry × CacheState × List Ev :=
  let pcs := (captureStack st.poolCap frames).1
  let newCap := (captureStack st.poolCap frames).2
  let r := getOrCreateStackPCs pcs newCap st interfere
  (r.1, r.2.1, Ev.poolGet :: Ev.callers :: r.2.2)

/-- The identity interference: no other goroutine touches the cache while
this call is between its read and write locks (sequential execution). -/
def noInterfere : CacheMap → CacheMap := fun m => m

/-!  The lazy formatter and its consumers (`StackTrace`, and `log.go`). -/

/-- One resolved frame: file, line, function (what `frames.Next()` yields).
Frame resolution itself is delegated to the runtime, so models below take an
abstract `resolve : Nat → Frame`. -/
abbrev Frame := String × Nat × String

/-- The zero `runtime.Frame`, yielded by `CallersFrames` of an empty slice. -/
def zeroFrame : Frame := ("", 0, "")

/-- One line of formatted output: `fmt.Fprintf("\n%s:%d %s", file, line, fn)`. -/
def frameLine (fr : Frame) : String :=
  "\n" ++ fr.1 ++ ":" ++ toString fr.2.1 ++ " " ++ fr.2.2

/-- The `runtime.CallersFrames` print loop shared by `formatStackTrace`
(lines 253-262) and `formatStack` (`log.go` lines 261-269): print a line per
frame; on an empty pc slice the first `Next` still yields the zero frame once
before reporting no more frames, so one zero line is printed. -/
def callersFramesText (resolve : Nat → Frame) : List Nat → String
  | [] => frameLine zeroFrame
  | [p] => frameLine (resolve p)
  | p :: ps => frameLine (resolve p) ++ callersFramesText resolve ps

/-- Lines 248-265 `formatStackTrace`: empty guard, then the resolution loop. -/
def formatStackTrace (resolve : Nat → Frame) (pc : List Nat) : String :=
  if pc.length = 0 then "" else callersFramesText resolve pc

/-- Lines 269-280 `(*Error).StackTrace`: "" when there is no stack entry;
otherwise `once.Do(formatted = formatStackTrace(pc))` and return the cached
text.  Returns the text, the entry as it is afterwards, and the number of
frame-resolution passes performed (the loop is entered only when the pc
sequence is non-empty). -/
def StackTrace (resolve : Nat → Frame) (stack : Option stackCacheEntry) :
    String × Option stackCacheEntry × Nat :=
  match stack with
  | none => ("", none, 0)
  | some en =>
    if en.onceDone then (en.formatted, some en, 0)
    else
      let text := formatStackTrace resolve en.pc
      (text, some { en with formatted := text, onceDone := true },
        if en.pc.length = 0 then 0 else 1)

/-- `n` successive `StackTrace` calls on the same (mutable) entry: the list
of returned texts, the final entry, and the total resolution passes. -/
def iterStackTrace (resolve : Nat → Frame) :
    Nat → Option stackCacheEntry → List String × Option stackCacheEntry × Nat
  | 0, st => ([], st, 0)
  | n + 1, st =>
    let r := StackTrace resolve st
    let r' := iterStackTrace resolve n r.2.1
    (r.1 :: r'.1, r'.2.1, r.2.2 + r'.2.2)

/-- The error value (`Error` struct plus the `error` interface): a zerr error
with message, cause, optional stack entry and metadata, or a plain non-zerr
error (`errors.New`-style, no `Unwrap`).  Metadata values are opaque; they are
modelled as strings. -/
inductive GoErr where
  | zerr (message : String) (cause : Option GoErr)
      (stack : Option stackCacheEntry) (metadata : List (String × String)) : GoErr
  | std (message : String) : GoErr

/-- The `Error()` method: message, or `message ++ ": " ++ cause` (cause alone
when the message is empty). -/
def goErrorText : GoErr → String
  | .std m => m
  | .zerr m c _ _ =>
    match c with
    | none => m
    | some cE => if m = "" then goErrorText cE else m ++ ": " ++ goErrorText cE

/-- `log.go` lines 49-54 `unwrap`: the cause for a zerr error, nothing for a
plain error. -/
def unwrap : GoErr → Option GoErr
  | .zerr _ c _ _ => c
  | .std _ => none

/-- `log.go` lines 15-46 `logFields`: walk the error chain (depth-guarded at
100); for each zerr error append its metadata fields and, when a stack entry
is present AND its cached formatted text is non-empty, a `stacktrace` field
carrying that cached text.  Note the source reads `zerr.stack.formatted`
directly and never calls `StackTrace`, so no frame resolution can happen
here (this model accordingly needs no `resolve`).  The loop is phrased as
recursion on the error value; `unwrap` of a plain error ends the chain. -/
def logFieldsErr : Nat → GoErr → List (String × String)
  | depth, .std _ =>
    if depth ≥ 100 then [("zerr.error", "max recursion depth exceeded")] else []
  | depth, .zerr _ c stack md =>
    if depth ≥ 100 then [("zerr.error", "max recursion depth exceeded")]
    else
      (md ++ (match stack with
              | some en => if en.formatted ≠ "" then [("stacktrace", en.formatted)] else []
              | none => []))
        ++ (match c with
            | none => []
            | some cE => logFieldsErr (depth + 1) cE)

/-- `logFields(err)` with the initial depth (a nil error yields no fields). -/
def logFields (err : Option GoErr) : List (String × String) :=
  match err with
  | none => []
  | some e => logFieldsErr 0 e

/-- `log.go` lines 57-80 `(*Error).LogValue`: msg attribute, metadata,
`stacktrace` only when the cached formatted text is non-empty (again read
directly, never computed), then the cause.  The receiver's fields are passed
explicitly since the method exists only on zerr errors. -/
def LogValue (message : String) (cause : Option GoErr)
    (stack : Option stackCacheEntry) (metadata : List (String × String)) :
    List (String × String) :=
  ([("msg", message)] ++ metadata)
    ++ (match stack with
        | some en => if en.formatted ≠ "" then [("stacktrace", en.formatted)] else []
        | none => [])
    ++ (match cause with
        | some c => [("cause", goErrorText c)]
        | none => [])

/-- `formatStack` (the `%+v` helper, error-type file lines 255-270): print the
cached text if it is non-empty, otherwise run the resolution loop directly —
without the once gate, without the empty-pc guard and without storing the
result.  Returns the printed stack text and the resolution passes (1: the
loop always runs when the cache is empty). -/
def formatStack (resolve : Nat → Frame) (en : stackCacheEntry) : String × Nat :=
  if en.formatted ≠ "" then (en.formatted, 0)
  else (callersFramesText resolve en.pc, 1)

/-- `(*Error).Format` (error-type file lines 235-252) for verbs `v` and `s`
(`q` only quotes the same text and is irrelevant here): `%+v` prints
`e.Error()` followed, when a stack entry exists, by `formatStack`; plain `%v`
and `%s` print `e.Error()`.  Returns the output, the stack entry as it is
afterwards, and the resolution passes performed. -/
def Format (resolve : Nat → Frame) (verb : Char) (plusFlag : Bool)
    (message : String) (cause : Option GoErr) (stack : Option stackCacheEntry)
    (metadata : List (String × String)) : String × Option stackCacheEntry × Nat :=
  let errText := goErrorText (.zerr message cause stack metadata)
  if verb = 'v' ∧ plusFlag then
    match stack with
    | none => (errText, none, 0)
    | some en =>
      (errText ++ (formatStack resolve en).1, some en, (formatStack resolve en).2)
  else if verb = 'v' ∨ verb = 's' then (errText, stack, 0)
  else ("", stack, 0)

/-!  Invariants. -/

/-- The live entries of a chain (targets of the still-valid weak pointers). -/
def chainLive (chain : Chain) : List stackCacheEntry :=
  chain.filterMap id

/-- The bucket invariant: no bucket's chain holds two live entries with the
same frame sequence. -/
def noDupLive (m : CacheMap) : Prop :=
  ∀ k chain, mapFind m k = some chain →
    (chainLive chain).Pairwise (fun a b => a.pc ≠ b.pc)

/-- Garbage collection on one chain: each weak pointer either survives or its
referent is reclaimed (`none`); nothing is added, removed or reordered. -/
def chainWeakens (c c' : Chain) : Prop :=
  List.Forall₂ (fun x y => y = x ∨ y = none) c c'

/-- Garbage collection on the whole map: every bucket's chain weakens. -/
def mapWeakens (m m' : CacheMap) : Prop :=
  List.Forall₂ (fun p q => p.1 = q.1 ∧ chainWeakens p.2 q.2) m m'

/-!  Basic lemmas about the comparison, scan and map primitives. -/

theorem stackMatches_cons (x y : Nat) (xs ys : List Nat) :
    stackMatches (x :: xs) (y :: ys) = ((x == y) && stackMatches xs ys) := by
  by_cases h : xs.length = ys.length
  · simp [stackMatches, h]
  · simp [stackMatches, h]

/-- The element-by-element comparison succeeds exactly on equal sequences. -/
theorem stackMatches_iff (a b : List Nat) : stackMatches a b = true ↔ a = b := by
  induction a generalizing b with
  | nil => cases b <;> simp [stackMatches]
  | cons x xs ih =>
    cases b with
    | nil => simp [stackMatches]
    | cons y ys => rw [stackMatches_cons]; simp [ih]

theorem stackMatches_self (a : List Nat) : stackMatches a a = true :=
  (stackMatches_iff a a).mpr rfl

theorem scanChain_found {chain : Chain} {pcs : List Nat} {e : stackCacheEntry}
    (h : (scanChain chain pcs).1 = some e) : e.pc = pcs ∧ some e ∈ chain := by
  induction chain with
  | nil => simp [scanChain] at h
  | cons w rest ih =>
    cases w with
    | none =>
      have hr := ih (by simpa [scanChain] using h)
      exact ⟨hr.1, List.mem_cons_of_mem _ hr.2⟩
    | some e' =>
      by_cases hm : stackMatches e'.pc pcs
      · simp [scanChain, hm] at h
        subst h
        exact ⟨(stackMatches_iff _ _).mp hm, List.mem_cons_self _ _⟩
      · simp only [scanChain, hm, if_false, Bool.false_eq_true] at h
        have hr := ih h
        exact ⟨hr.1, List.mem_cons_of_mem _ hr.2⟩

theorem scanChain_none {chain : Chain} {pcs : List Nat}
    (h : (scanChain chain pcs).1 = none) :
    ∀ e : stackCacheEntry, some e ∈ chain → e.pc ≠ pcs := by
  induction chain with
  | nil => intro e he; simp at he
  | cons w rest ih =>
    cases w with
    | none =>
      intro e he
      rcases List.mem_cons.mp he with h1 | h1
      · cases h1
      · exact ih (by simpa [scanChain] using h) e h1
    | some e' =>
      by_cases hm : stackMatches e'.pc pcs
      · simp [scanChain, hm] at h
      · intro e he
        rcases List.mem_cons.mp he with h1 | h1
        · cases h1
          intro hpc
          exact absurd ((stackMatches_iff _ _).mpr hpc) (by simpa using hm)
        · refine ih ?_ e h1
          simpa only [scanChain, hm, if_false, Bool.false_eq_true] using h

theorem scanChain_append_found {c1 c2 : Chain} {pcs : List Nat} {e : stackCacheEntry}
    (h : (scanChain c1 pcs).1 = some e) :
    (scanChain (c1 ++ c2) pcs).1 = some e := by
  induction c1 with
  | nil => simp [scanChain] at h
  | cons w rest ih =>
    cases w with
    | none =>
      simp only [List.cons_append, scanChain]
      exact ih (by simpa [scanChain] using h)
    | some e' =>
      by_cases hm : stackMatches e'.pc pcs
      · simpa [scanChain, hm] using by simpa [scanChain, hm] using h
      · simp only [List.cons_append, scanChain, hm, if_false, Bool.false_eq_true]
        exact ih (by simpa only [scanChain, hm, if_false, Bool.false_eq_true] using h)

theorem scanChain_append_none {c1 c2 : Chain} {pcs : List Nat}
    (h : (scanChain c1 pcs).1 = none) :
    (scanChain (c1 ++ c2) pcs).1 = (scanChain c2 pcs).1 := by
  induction c1 with
  | nil => simp [scanChain]
  | cons w rest ih =>
    cases w with
    | none =>
      simp only [List.cons_append, scanChain]
      exact ih (by simpa [scanChain] using h)
    | some e' =>
      by_cases hm : stackMatches e'.pc pcs
      · simp [scanChain, hm] at h
      · simp only [List.cons_append, scanChain, hm, if_false, Bool.false_eq_true]
        exact ih (by simpa only [scanChain, hm, if_false, Bool.false_eq_true] using h)

theorem scanChain_compact (c : Chain) (pcs : List Nat) :
    (scanChain (compactChain c) pcs).1 = (scanChain c pcs).1 := by
  induction c with
  | nil => rfl
  | cons w rest ih =>
    cases w with
    | none => simpa [compactChain, scanChain] using ih
    | some e' =>
      by_cases hm : stackMatches e'.pc pcs
      · simp [compactChain, scanChain, hm]
      · simpa [compactChain, scanChain, hm] using ih

theorem rescanCompact_active (c : Chain) (pcs : List Nat) :
    (rescanCompact c pcs).1 = compactChain c := by
  induction c with
  | nil => rfl
  | cons w rest ih =>
    cases w with
    | none => simpa [rescanCompact, compactChain] using ih
    | some e' =>
      by_cases hm : stackMatches e'.pc pcs
      · simp [rescanCompact, compactChain, hm]
      · simpa [rescanCompact, compactChain, hm] using ih

theorem rescanCompact_found (c : Chain) (pcs : List Nat) :
    (rescanCompact c pcs).2.1 = (scanChain c pcs).1 := by
  induction c with
  | nil => rfl
  | cons w rest ih =>
    cases w with
    | none => simpa [rescanCompact, scanChain] using ih
    | some e' =>
      by_cases hm : stackMatches e'.pc pcs
      · simp [rescanCompact, scanChain, hm]
      · simpa [rescanCompact, scanChain, hm] using ih

theorem chainLive_compact (c : Chain) : chainLive (compactChain c) = chainLive c := by
  induction c with
  | nil => rfl
  | cons w rest ih =>
    cases w with
    | none => simpa [compactChain, chainLive] using ih
    | some e' => simpa [compactChain, chainLive] using ih

theorem mem_chainLive {c : Chain} {e : stackCacheEntry} :
    e ∈ chainLive c ↔ some e ∈ c := by
  simp only [chainLive, List.mem_filterMap, id]
  constructor
  · rintro ⟨x, hx, rfl⟩; exact hx
  · intro hx; exact ⟨some e, hx, rfl⟩

theorem mapFind_mapSet_self (m : CacheMap) (k : Nat) (v : Chain) :
    mapFind (mapSet m k v) k = some v := by
  induction m with
  | nil => simp [mapSet, mapFind]
  | cons p rest ih =>
    obtain ⟨k', v'⟩ := p
    by_cases h : k' = k
    · simp [mapSet, mapFind, h]
    · simp [mapSet, mapFind, h, ih]

theorem mapFind_mapSet_ne (m : CacheMap) {k k' : Nat} (v : Chain) (h : k' ≠ k) :
    mapFind (mapSet m k v) k' = mapFind m k' := by
  induction m with
  | nil => simp [mapSet, mapFind, Ne.symm h]
  | cons p rest ih =>
    obtain ⟨k0, v0⟩ := p
    by_cases h0 : k0 = k
    · subst h0
      simp [mapSet, mapFind, Ne.symm h]
    · simp [mapSet, mapFind, h0, ih]

/-!  Branch lemmas for the get-or-create operation. -/

theorem insertStack_pc (pcs : List Nat) (hash cap : Nat) (st : CacheState)
    (interfere : CacheMap → CacheMap) (evs : List Ev) :
    ((insertStack pcs hash cap st interfere evs).1).pc = pcs := by
  unfold insertStack
  cases hfind : mapFind (interfere st.stackCache) hash with
  | none => simp [hfind]
  | some entries =>
    cases hre : (rescanCompact entries pcs).2.1 with
    | none => simp [hfind, hre]
    | some e =>
      simp only [hfind, hre]
      have h1 := rescanCompact_found entries pcs
      rw [hre] at h1
      exact (scanChain_found h1.symm).1

/-- The returned entry's frame sequence is always exactly the captured one. -/
theorem goc_pc (pcs : List Nat) (cap : Nat) (st : CacheState)
    (interfere : CacheMap → CacheMap) :
    ((getOrCreateStackPCs pcs cap st interfere).1).pc = pcs := by
  unfold getOrCreateStackPCs
  cases hfind : mapFind st.stackCache (fingerprint pcs) with
  | none =>
    simp only [hfind]
    exact insertStack_pc ..
  | some entries =>
    cases hscan : (scanChain entries pcs).1 with
    | none =>
      simp only [hfind, hscan]
      exact insertStack_pc ..
    | some e =>
      simp only [hfind, hscan]
      exact (scanChain_found hscan).1

/-- A fast-path hit: when the bucket scan finds a live matching entry, the
call returns it and leaves the cache untouched. -/
theorem goc_fast {pcs : List Nat} {st : CacheState} {chain : Chain} {e : stackCacheEntry}
    (cap : Nat) (interfere : CacheMap → CacheMap)
    (hfind : mapFind st.stackCache (fingerprint pcs) = some chain)
    (hscan : (scanChain chain pcs).1 = some e) :
    (getOrCreateStackPCs pcs cap st interfere).1 = e
    ∧ (getOrCreateStackPCs pcs cap st interfere).2.1
        = ⟨st.stackCache, st.nextId, cap⟩ := by
  unfold getOrCreateStackPCs
  simp [hfind, hscan]

/-- After a get-or-create for `pcs`, looking up `pcs` in the resulting cache
finds exactly the entry that was returned (it is the first live match in its
bucket's chain). -/
theorem goc_self_find (pcs : List Nat) (cap : Nat) (st : CacheState) :
    ∃ chain,
      mapFind (getOrCreateStackPCs pcs cap st noInterfere).2.1.stackCache
          (fingerprint pcs) = some chain
      ∧ (scanChain chain pcs).1 = some (getOrCreateStackPCs pcs cap st noInterfere).1 := by
  unfold getOrCreateStackPCs insertStack noInterfere
  cases hfind : mapFind st.stackCache (fingerprint pcs) with
  | none =>
    simp only [hfind, Option.getD_none]
    refine ⟨[some ⟨st.nextId, pcs, "", false⟩], ?_, ?_⟩
    · simpa using mapFind_mapSet_self ..
    · simp [scanChain, stackMatches_self]
  | some entries =>
    cases hscan : (scanChain entries pcs).1 with
    | some e =>
      simp only [hfind, hscan]
      exact ⟨entries, rfl, hscan⟩
    | none =>
      have hre := rescanCompact_found entries pcs
      rw [hscan] at hre
      simp only [hfind, hscan, hre, rescanCompact_active]
      refine ⟨compactChain entries ++ [some ⟨st.nextId, pcs, "", false⟩], ?_, ?_⟩
      · simp [mapFind_mapSet_self]
      · have hc : (scanChain (compactChain entries) pcs).1 = none := by
          rw [scanChain_compact]; exact hscan
        rw [scanChain_append_none hc]
        simp [scanChain, stackMatches_self]

/-- A get-or-create for `pcs` does not disturb what a lookup of any other
already-cached sequence finds: if `pcs'` resolved to `e'` before the call, it
still resolves to `e'` afterwards. -/
theorem goc_preserve_find (pcs pcs' : List Nat) (cap : Nat) (st : CacheState)
    {chain' : Chain} {e' : stackCacheEntry}
    (hfind' : mapFind st.stackCache (fingerprint pcs') = some chain')
    (hscan' : (scanChain chain' pcs').1 = some e') :
    ∃ chain2,
      mapFind (getOrCreateStackPCs pcs cap st noInterfere).2.1.stackCache
          (fingerprint pcs') = some chain2
      ∧ (scanChain chain2 pcs').1 = some e' := by
  unfold getOrCreateStackPCs insertStack noInterfere
  cases hfind : mapFind st.stackCache (fingerprint pcs) with
  | none =>
    simp only [hfind, Option.getD_none]
    have hne : fingerprint pcs' ≠ fingerprint pcs := by
      intro h; rw [h, hfind] at hfind'; cases hfind'
    refine ⟨chain', ?_, hscan'⟩
    simpa [mapFind_mapSet_ne _ _ hne] using hfind'
  | some entries =>
    cases hscan : (scanChain entries pcs).1 with
    | some e =>
      simp only [hfind, hscan]
      exact ⟨chain', hfind', hscan'⟩
    | none =>
      have hre := rescanCompact_found entries pcs
      rw [hscan] at hre
      simp only [hfind, hscan, hre, rescanCompact_active]
      by_cases heq : fingerprint pcs' = fingerprint pcs
      · rw [heq] at hfind'
        rw [hfind] at hfind'
        have hent : entries = chain' := by cases hfind'; rfl
        subst hent
        refine ⟨compactChain entries ++ [some ⟨st.nextId, pcs, "", false⟩], ?_, ?_⟩
        · rw [heq]
          simp [mapFind_mapSet_self]
        · have hc : (scanChain (compactChain entries) pcs').1 = some e' := by
            rw [scanChain_compact]; exact hscan'
          exact scanChain_append_found hc
      · refine ⟨chain', ?_, hscan'⟩
        rw [mapFind_mapSet_ne _ _ heq, mapFind_mapSet_ne _ _ heq]
        exact hfind'

/-!  The bucket invariant is preserved by the operation and by reclamation. -/

theorem noDupLive_mapSet {m : CacheMap} {k : Nat} {v : Chain}
    (hm : noDupLive m) (hv : (chainLive v).Pairwise (fun a b => a.pc ≠ b.pc)) :
    noDupLive (mapSet m k v) := by
  intro k' chain h
  by_cases hk : k' = k
  · subst hk
    rw [mapFind_mapSet_self] at h
    cases h
    exact hv
  · rw [mapFind_mapSet_ne _ _ hk] at h
    exact hm k' chain h

theorem goc_preserves_noDupLive (pcs : List Nat) (cap : Nat) (st : CacheState)
    (h : noDupLive st.stackCache) :
    noDupLive (getOrCreateStackPCs pcs cap st noInterfere).2.1.stackCache := by
  unfold getOrCreateStackPCs insertStack noInterfere
  cases hfind : mapFind st.stackCache (fingerprint pcs) with
  | none =>
    simp only [hfind, Option.getD_none, List.nil_append]
    apply noDupLive_mapSet h
    simp [chainLive]
  | some entries =>
    cases hscan : (scanChain entries pcs).1 with
    | some e =>
      simp only [hfind, hscan]
      exact h
    | none =>
      have hre := rescanCompact_found entries pcs
      rw [hscan] at hre
      simp only [hfind, hscan, hre, rescanCompact_active, mapFind_mapSet_self,
        Option.getD_some]
      have hpair : (chainLive entries).Pairwise (fun a b => a.pc ≠ b.pc) :=
        h _ _ hfind
      have hcomp : (chainLive (compactChain entries)).Pairwise
          (fun a b => a.pc ≠ b.pc) := by rw [chainLive_compact]; exact hpair
      apply noDupLive_mapSet (noDupLive_mapSet h hcomp)
      rw [chainLive, List.filterMap_append]
      rw [List.pairwise_append]
      refine ⟨hcomp, by simp, ?_⟩
      intro a ha b hb
      have ha2 : a ∈ chainLive entries := by
        rw [← chainLive_compact]
        exact ha
      have ha'' : some a ∈ entries := mem_chainLive.mp ha2
      have hb' : b = ⟨st.nextId, pcs, "", false⟩ := by
        simpa [chainLive] using hb
      subst hb'
      exact scanChain_none hscan a ha''

theorem chainWeakens_live_sublist {c c' : Chain} (h : chainWeakens c c') :
    (chainLive c').Sublist (chainLive c) := by
  induction h with
  | nil => exact List.Sublist.refl _
  | @cons a b l₁ l₂ hab _ ih =>
    rcases hab with hab | hab
    · subst hab
      cases b with
      | none => simpa [chainLive, List.filterMap_cons] using ih
      | some e =>
        simp only [chainLive, List.filterMap_cons, id] at ih ⊢
        exact List.Sublist.cons₂ e ih
    · subst hab
      cases a with
      | none => simpa [chainLive, List.filterMap_cons] using ih
      | some e =>
        simp only [chainLive, List.filterMap_cons, id] at ih ⊢
        exact ih.trans (List.sublist_cons_self e _)

theorem mapWeakens_find {m m' : CacheMap} (h : mapWeakens m m') {k : Nat}
    {chain' : Chain} (hf : mapFind m' k = some chain') :
    ∃ chain, mapFind m k = some chain ∧ chainWeakens chain chain' := by
  induction h with
  | nil => simp [mapFind] at hf
  | @cons p q ps qs hpq _ ih =>
    obtain ⟨p1, p2⟩ := p
    obtain ⟨q1, q2⟩ := q
    obtain ⟨hk, hw⟩ := hpq
    simp only at hk hw
    subst hk
    by_cases hqk : p1 = k
    · subst hqk
      simp only [mapFind, if_pos rfl] at hf ⊢
      cases hf
      exact ⟨p2, rfl, hw⟩
    · simp only [mapFind, if_neg hqk] at hf ⊢
      exact ih hf

/-- Reclamation (weak pointers going dead) cannot introduce duplicates. -/
theorem mapWeakens_noDupLive {m m' : CacheMap} (hw : mapWeakens m m')
    (h : noDupLive m) : noDupLive m' := by
  intro k chain' hf
  obtain ⟨chain, hfm, hcw⟩ := mapWeakens_find hw hf
  exact List.Pairwise.sublist (chainWeakens_live_sublist hcw) (h k chain hfm)

/-- Claim C1: every get-or-create call returns a Stack Entry whose
frame-identifier sequence is element-for-element the captured sequence; two
sequential calls that capture identical sequences (no reclamation in between,
so both handles stay alive) return the same, identity-equal entry; two calls
that capture different sequences return distinct entries. -/
theorem getOrCreate_identity (pcs1 pcs2 : List Nat) (cap1 cap2 : Nat)
    (st : CacheState) :
    let r1 := getOrCreateStackPCs pcs1 cap1 st noInterfere
    let r2 := getOrCreateStackPCs pcs2 cap2 r1.2.1 noInterfere
    r1.1.pc = pcs1 ∧ r2.1.pc = pcs2
    ∧ (pcs1 = pcs2 → r2.1 = r1.1)
    ∧ (pcs1 ≠ pcs2 → r2.1 ≠ r1.1) := by
  intro r1 r2
  refine ⟨goc_pc .., goc_pc .., ?_, ?_⟩
  · intro hEq
    subst hEq
    obtain ⟨chain, hfind, hscan⟩ := goc_self_find pcs1 cap1 st
    exact (goc_fast cap2 noInterfere hfind hscan).1
  · intro hne heq2
    apply hne
    have h1 : r1.1.pc = pcs1 := goc_pc ..
    have h2 : r2.1.pc = pcs2 := goc_pc ..
    rw [← h1, ← h2, heq2]

/-- Witness for C1: from the empty cache, capturing `[1]` and then `[2]`
yields two distinct entries. -/
theorem getOrCreate_identity_witness :
    ([1] : List Nat) ≠ [2]
    ∧ (getOrCreateStackPCs [2] 128
          (getOrCreateStackPCs [1] 128 ⟨[], 0, 128⟩ noInterfere).2.1 noInterfere).1
        ≠ (getOrCreateStackPCs [1] 128 ⟨[], 0, 128⟩ noInterfere).1 :=
  ⟨by decide,
   (getOrCreate_identity [1] [2] 128 128 ⟨[], 0, 128⟩).2.2.2 (by decide)⟩

/-- Claim C2: two distinct frame sequences with equal fingerprints are stored
as two distinct entries in the same bucket, and a lookup of either sequence
returns the entry whose sequence matches it exactly; the bucket invariant —
no chain holds two live entries with identical frame sequences — is preserved
by every get-or-create and by weak-pointer reclamation, so equality is always
decided by element-by-element comparison, never by the fingerprint alone. -/
theorem stackCache_collision_safety :
    (∀ (pcs1 pcs2 : List Nat) (cap1 cap2 : Nat) (st : CacheState),
      pcs1 ≠ pcs2 → fingerprint pcs1 = fingerprint pcs2 →
      let r1 := getOrCreateStackPCs pcs1 cap1 st noInterfere
      let r2 := getOrCreateStackPCs pcs2 cap2 r1.2.1 noInterfere
      r1.1 ≠ r2.1
      ∧ ∃ chain, mapFind r2.2.1.stackCache (fingerprint pcs1) = some chain
          ∧ some r1.1 ∈ chain ∧ some r2.1 ∈ chain
          ∧ (getOrCreateStackPCs pcs1 cap1 r2.2.1 noInterfere).1 = r1.1
          ∧ (getOrCreateStackPCs pcs2 cap2 r2.2.1 noInterfere).1 = r2.1)
    ∧ (∀ (pcs : List Nat) (cap : Nat) (st : CacheState),
        noDupLive st.stackCache →
        noDupLive (getOrCreateStackPCs pcs cap st noInterfere).2.1.stackCache)
    ∧ (∀ m m', mapWeakens m m' → noDupLive m → noDupLive m') := by
  refine ⟨?_, ?_, ?_⟩
  · intro pcs1 pcs2 cap1 cap2 st hne hfp r1 r2
    have hpc1 : r1.1.pc = pcs1 := goc_pc ..
    have hpc2 : r2.1.pc = pcs2 := goc_pc ..
    obtain ⟨chainA, hfindA, hscanA⟩ := goc_self_find pcs1 cap1 st
    obtain ⟨chain2, hfind2, hscan2⟩ :=
      goc_preserve_find pcs2 pcs1 cap2 r1.2.1 hfindA hscanA
    obtain ⟨chainB, hfindB, hscanB⟩ := goc_self_find pcs2 cap2 r1.2.1
    rw [← hfp] at hfindB
    have hBeq : chainB = chain2 := by
      have := hfind2.symm.trans hfindB
      exact (Option.some.injEq _ _ ▸ this).symm
    subst hBeq
    refine ⟨?_, chainB, hfind2, (scanChain_found hscan2).2,
      (scanChain_found hscanB).2,
      (goc_fast cap1 noInterfere hfind2 hscan2).1,
      (goc_fast cap2 noInterfere (hfp ▸ hfindB) hscanB).1⟩
    intro habs
    exact hne (by rw [← hpc1, habs, hpc2])
  · intro pcs cap st h
    exact goc_preserves_noDupLive pcs cap st h
  · intro m m' hw h
    exact mapWeakens_noDupLive hw h

/-- Witness for C2: `[2^63, 0]` and `[0, 2^63]` are distinct sequences with
equal fingerprints, and they produce distinct entries. -/
theorem stackCache_collision_safety_witness :
    (getOrCreateStackPCs [2 ^ 63, 0] 128 ⟨[], 0, 128⟩ noInterfere).1
      ≠ (getOrCreateStackPCs [0, 2 ^ 63] 128
          (getOrCreateStackPCs [2 ^ 63, 0] 128 ⟨[], 0, 128⟩ noInterfere).2.1
          noInterfere).1 :=
  (stackCache_collision_safety.1 [2 ^ 63, 0] [0, 2 ^ 63] 128 128 ⟨[], 0, 128⟩
    (by decide) (by decide)).1

/-!  The fingerprint: order sensitivity and its limits. -/

/-- Counterexample to claim C4: `[2^63, 0]` and `[0, 2^63]` are unequal
permutations of each other, yet their fingerprints coincide (the swap changes
the accumulated sum by `30 * 2^63 ≡ 0 (mod 2^64)`), so the fingerprint does
NOT separate all permutations. -/
theorem fingerprint_permutation_collision :
    fingerprint [2 ^ 63, 0] = fingerprint [0, 2 ^ 63]
    ∧ ([2 ^ 63, 0] : List Nat) ≠ [0, 2 ^ 63]
    ∧ ([2 ^ 63, 0] : List Nat).Perm [0, 2 ^ 63] :=
  ⟨by decide, by decide, List.Perm.swap 0 (2 ^ 63) []⟩

/-- Claim C4 (amended): the accumulation `hash = hash*31 + pc (mod 2^64)`
with seed 17 is order-sensitive, but only up to the modulus: for two-element
sequences the fingerprints of `[a, b]` and `[b, a]` agree exactly when
`a ≡ b (mod 2^63)`; permutations whose swapped elements are not congruent mod
`2^63` (in particular, almost all distinct addresses) get distinct
fingerprints, while pairs differing by exactly `2^63` collide. -/
theorem fingerprint_swap_eq_iff (a b : Nat) :
    (fingerprint [a, b] = fingerprint [b, a]) ↔ a % 2 ^ 63 = b % 2 ^ 63 := by
  have key : ∀ x y : Nat, fingerprint [x, y] = ((527 + x) * 31 + y) % 2 ^ 64 := by
    intro x y
    show ((17 * 31 + x) % 2 ^ 64 * 31 + y) % 2 ^ 64 = _
    rw [Nat.add_mod, Nat.mod_mul_mod, ← Nat.add_mod]
  have h64 : ((527 + a) * 31 + b) % 2 ^ 64 = ((527 + b) * 31 + a) % 2 ^ 64
      ↔ (2 ^ 64 : ℤ) ∣ 30 * ((b : ℤ) - (a : ℤ)) := by
    constructor
    · intro h
      have h' := Nat.modEq_iff_dvd.mp h
      convert h' using 1
      push_cast
      ring
    · intro h
      refine Nat.modEq_iff_dvd.mpr ?_
      convert h using 1
      push_cast
      ring
  have h63 : (a % 2 ^ 63 = b % 2 ^ 63) ↔ (2 ^ 63 : ℤ) ∣ (b : ℤ) - (a : ℤ) :=
    Nat.modEq_iff_dvd
  rw [key a b, key b a, h64, h63]
  constructor
  · intro h
    have h2 : (2 : ℤ) * 2 ^ 63 ∣ 2 * (15 * ((b : ℤ) - (a : ℤ))) := by
      have he : (2 : ℤ) * 2 ^ 63 = 2 ^ 64 := by norm_num
      rw [he]
      convert h using 1
      ring
    have h3 : (2 : ℤ) ^ 63 ∣ 15 * ((b : ℤ) - (a : ℤ)) :=
      (mul_dvd_mul_iff_left (two_ne_zero)).mp h2
    have hco : IsCoprime ((2 : ℤ) ^ 63) 15 :=
      IsCoprime.pow_left (⟨-7, 1, by ring⟩ : IsCoprime (2 : ℤ) 15)
    exact hco.dvd_of_dvd_mul_left h3
  · rintro ⟨q, hq⟩
    refine ⟨15 * q, ?_⟩
    have he : (2 : ℤ) ^ 64 = 2 * 2 ^ 63 := by norm_num
    rw [hq, he]
    ring

/-- Witness for the amended C4: `[1, 2]` and `[2, 1]` have different
fingerprints. -/
theorem fingerprint_swap_eq_iff_witness :
    fingerprint [1, 2] ≠ fingerprint [2, 1] := fun h =>
  absurd ((fingerprint_swap_eq_iff 1 2).mp h) (by decide)

/-!  The frame capturer: growth and its limits. -/

/-- Counterexample to claim C5: a 257-frame stack captured into a 128-slot
pooled buffer is deeper than the capacity, yet the returned sequence has only
256 frames (the single doubling reaches 256 slots and the second capture is
still truncated), not the full 257. -/
theorem captureStack_truncation :
    128 < (List.range 257).length
    ∧ (captureStack 128 (List.range 257)).1.length = 256
    ∧ (List.range 257).length = 257 := by
  refine ⟨by simp, ?_, by simp⟩
  simp [captureStack]

/-- Claim C5 (amended): when the stack is deeper than the pooled buffer's
capacity, capture detects the exactly-filled buffer, doubles the buffer,
recaptures once and trims to the frames obtained — which recovers the full
frame count whenever the stack is at most twice the original capacity;
stacks deeper than twice the capacity remain truncated to `2*cap` frames. -/
theorem captureStack_growth (cap : Nat) (frames : List Nat)
    (h : cap < frames.length) :
    (captureStack cap frames).2 = cap * 2
    ∧ (captureStack cap frames).1 = frames.take (min frames.length (cap * 2))
    ∧ (frames.length ≤ cap * 2 → (captureStack cap frames).1 = frames) := by
  have hmin : min frames.length cap = cap := by omega
  refine ⟨by simp [captureStack, hmin], by simp [captureStack, hmin], ?_⟩
  intro hle
  have : min frames.length (cap * 2) = frames.length := by omega
  simp [captureStack, hmin, this]

/-- Witness for the amended C5: a 2-frame stack against a 1-slot buffer is
captured in full after the single doubling. -/
theorem captureStack_growth_witness :
    (1 : Nat) < ([5, 6] : List Nat).length
    ∧ (captureStack 1 [5, 6]).1 = [5, 6] :=
  ⟨by decide, (captureStack_growth 1 [5, 6] (by decide)).2.2 (by decide)⟩

/-!  The lazy formatter: one-shot gate, idempotence, empty stacks. -/

theorem stackTrace_stable (resolve : Nat → Frame) (st : Option stackCacheEntry) :
    StackTrace resolve (StackTrace resolve st).2.1
      = ((StackTrace resolve st).1, (StackTrace resolve st).2.1, 0) := by
  cases st with
  | none => rfl
  | some en =>
    by_cases h : en.onceDone
    · simp [StackTrace, h]
    · simp [StackTrace, h]

theorem stackTrace_resolutions_le_one (resolve : Nat → Frame)
    (st : Option stackCacheEntry) : (StackTrace resolve st).2.2 ≤ 1 := by
  cases st with
  | none => simp [StackTrace]
  | some en =>
    by_cases h : en.onceDone
    · simp [StackTrace, h]
    · by_cases hp : en.pc.length = 0 <;> simp [StackTrace, h, hp]

theorem iterStackTrace_of_stable (resolve : Nat → Frame)
    (st : Option stackCacheEntry)
    (hst : StackTrace resolve st = ((StackTrace resolve st).1, st, 0)) (n : Nat) :
    iterStackTrace resolve n st
      = (List.replicate n (StackTrace resolve st).1, st, 0) := by
  induction n with
  | zero => simp [iterStackTrace]
  | succ n ih =>
    have h1 : (StackTrace resolve st).2.1 = st := by rw [hst]
    have h2 : (StackTrace resolve st).2.2 = 0 := by rw [hst]
    simp only [iterStackTrace]
    rw [h1, h2, ih]
    simp [List.replicate_succ]

/-- Claim C6: formatting is idempotent — any number of `StackTrace` calls on
one entry return the same text every time, and the frame-to-source resolution
pass runs at most once across all of them (later calls read the cache). -/
theorem stackTrace_idempotent (resolve : Nat → Frame)
    (st : Option stackCacheEntry) (n : Nat) :
    ∃ t, (iterStackTrace resolve n st).1 = List.replicate n t
      ∧ (iterStackTrace resolve n st).2.2 ≤ 1 := by
  cases n with
  | zero => exact ⟨"", by simp [iterStackTrace], by simp [iterStackTrace]⟩
  | succ n =>
    refine ⟨(StackTrace resolve st).1, ?_, ?_⟩
    all_goals
      have hstable := stackTrace_stable resolve st
      have hs : StackTrace resolve (StackTrace resolve st).2.1
          = ((StackTrace resolve (StackTrace resolve st).2.1).1,
             (StackTrace resolve st).2.1, 0) := by rw [hstable]
      have hval : (StackTrace resolve (StackTrace resolve st).2.1).1
          = (StackTrace resolve st).1 := by rw [hstable]
      have hiter := iterStackTrace_of_stable resolve _ hs n
      simp only [iterStackTrace]
      rw [hiter, hval]
    · simp [List.replicate_succ]
    · simpa using stackTrace_resolutions_le_one resolve st

/-- Claim C7: a handle with no frames — an entry with an empty pc sequence,
or an error carrying no stack entry at all — always formats to the empty
string, and the frame-resolution primitive is never invoked for it. -/
theorem stackTrace_empty (resolve : Nat → Frame) (n : Nat) :
    iterStackTrace resolve n none = (List.replicate n "", none, 0)
    ∧ ∀ en : stackCacheEntry, en.pc = [] → en.onceDone = false →
        (iterStackTrace resolve n (some en)).1 = List.replicate n ""
        ∧ (iterStackTrace resolve n (some en)).2.2 = 0 := by
  constructor
  · have hs : StackTrace resolve none
        = ((StackTrace resolve none).1, none, 0) := rfl
    simpa using iterStackTrace_of_stable resolve none hs n
  · intro en hpc hdone
    cases n with
    | zero => exact ⟨by simp [iterStackTrace], by simp [iterStackTrace]⟩
    | succ n =>
      have h1 : StackTrace resolve (some en)
          = ("", some { en with formatted := "", onceDone := true }, 0) := by
        simp [StackTrace, hdone, formatStackTrace, hpc]
      have hs : StackTrace resolve (some { en with formatted := "", onceDone := true })
          = ((StackTrace resolve
                (some { en with formatted := "", onceDone := true })).1,
             some { en with formatted := "", onceDone := true }, 0) := by
        simp [StackTrace]
      have hval : (StackTrace resolve
          (some { en with formatted := "", onceDone := true })).1 = "" := by
        simp [StackTrace]
      have hiter := iterStackTrace_of_stable resolve _ hs n
      constructor
      all_goals
        simp only [iterStackTrace]
        rw [h1]
        simp only []
        rw [hiter, hval]
      · simp [List.replicate_succ]
      · simp

/-- Witness for C7: two calls on a fresh empty-pc entry both return `""` with
zero resolution passes. -/
theorem stackTrace_empty_witness :
    (iterStackTrace (fun _ => ("", 0, "")) 2 (some ⟨0, [], "", false⟩)).1
        = List.replicate 2 ""
    ∧ (iterStackTrace (fun _ => ("", 0, "")) 2 (some ⟨0, [], "", false⟩)).2.2 = 0 :=
  (stackTrace_empty (fun _ => ("", 0, "")) 2).2 ⟨0, [], "", false⟩ rfl rfl

/-!  The `%+v` formatting path. -/

theorem frameLine_length (fr : Frame) : 1 ≤ (frameLine fr).length := by
  have h : ("\n" : String).length = 1 := rfl
  simp only [frameLine, String.length_append, h]
  omega

theorem callersFramesText_ne_empty (resolve : Nat → Frame) (p : Nat)
    (ps : List Nat) : callersFramesText resolve (p :: ps) ≠ "" := by
  have h1 : 1 ≤ (callersFramesText resolve (p :: ps)).length := by
    cases ps with
    | nil => simpa [callersFramesText] using frameLine_length (resolve p)
    | cons q qs =>
      have h2 := frameLine_length (resolve p)
      simp only [callersFramesText, String.length_append]
      omega
  intro h
  rw [h] at h1
  simp at h1

/-- Claim C10: the `%+v` path leaves the stack entry untouched.  When the
entry's formatted text has not been computed (cache empty), `%+v` resolves the
frames directly, bypassing the once gate and storing nothing, so repeating
`%+v` re-runs resolution every time; when the cached text is non-empty — which
happens only after `StackTrace` — `%+v` prints the cached text with no
resolution.  In particular once `StackTrace` has run on a non-empty pc
sequence, the cache is non-empty and `%+v` uses it. -/
theorem format_plusv_bypasses_gate (resolve : Nat → Frame) (m : String)
    (c : Option GoErr) (md : List (String × String)) (en : stackCacheEntry) :
    let r := Format resolve 'v' true m c (some en) md
    r.2.1 = some en
    ∧ (en.formatted = "" →
        r.2.2 = 1
        ∧ r.1 = goErrorText (.zerr m c (some en) md)
            ++ callersFramesText resolve en.pc
        ∧ (Format resolve 'v' true m c r.2.1 md).2.2 = 1)
    ∧ (en.formatted ≠ "" →
        r.2.2 = 0
        ∧ r.1 = goErrorText (.zerr m c (some en) md) ++ en.formatted)
    ∧ (en.onceDone = false → en.pc ≠ [] →
        ∀ en', (StackTrace resolve (some en)).2.1 = some en' →
          en'.formatted ≠ ""
          ∧ (Format resolve 'v' true m c (some en') md).2.2 = 0
          ∧ (Format resolve 'v' true m c (some en') md).1
              = goErrorText (.zerr m c (some en') md) ++ en'.formatted) := by
  intro r
  unfold r
  refine ⟨?_, ?_, ?_, ?_⟩
  · simp [Format]
  · intro h0
    refine ⟨?_, ?_, ?_⟩ <;> simp [Format, formatStack, h0]
  · intro h0
    refine ⟨?_, ?_⟩ <;> simp [Format, formatStack, h0]
  · intro hdone hpc en' hen'
    have hen2 :
        en' = ⟨en.id, en.pc, formatStackTrace resolve en.pc, true⟩ := by
      rw [StackTrace, hdone] at hen'
      simp only [Bool.false_eq_true, if_false] at hen'
      cases hen'
      rfl
    have htext : formatStackTrace resolve en.pc
        = callersFramesText resolve en.pc := by
      rw [formatStackTrace, if_neg (by simpa [List.length_eq_zero] using hpc)]
    have hne : en'.formatted ≠ "" := by
      rw [hen2]
      simp only [htext]
      cases hp : en.pc with
      | nil => exact absurd hp hpc
      | cons p ps => exact callersFramesText_ne_empty resolve p ps
    exact ⟨hne, by simp [Format, formatStack, hne], by simp [Format, formatStack, hne]⟩

/-- Witness for C10: on a fresh unformatted entry, `%+v` performs one
resolution pass and a second `%+v` performs one again (nothing was cached). -/
theorem format_plusv_bypasses_gate_witness :
    (Format (fun p => ("f", p, "g")) 'v' true "m" none
        (some ⟨0, [7], "", false⟩) []).2.2 = 1
    ∧ (Format (fun p => ("f", p, "g")) 'v' true "m" none
        (Format (fun p => ("f", p, "g")) 'v' true "m" none
          (some ⟨0, [7], "", false⟩) []).2.1 []).2.2 = 1 :=
  ⟨((format_plusv_bypasses_gate (fun p => ("f", p, "g")) "m" none []
      ⟨0, [7], "", false⟩).2.1 rfl).1,
   ((format_plusv_bypasses_gate (fun p => ("f", p, "g")) "m" none []
      ⟨0, [7], "", false⟩).2.1 rfl).2.2⟩

/-!  Structured logging: what `logFields` and `LogValue` actually emit. -/

/-- Counterexample to claim C3: an error holding a stack handle with frames
whose text has not yet been formatted emits NO `stacktrace` field in its
structured log representation — `logFields` and `LogValue` only read the
cached `formatted` string (empty here) and never request `FormatStack`. -/
theorem logFields_no_stacktrace_counterexample :
    logFields (some (.zerr "m" none (some ⟨0, [1, 2], "", false⟩) [])) = []
    ∧ LogValue "m" none (some ⟨0, [1, 2], "", false⟩) [] = [("msg", "m")]
    ∧ (⟨0, [1, 2], "", false⟩ : stackCacheEntry).pc ≠ [] := by
  refine ⟨by decide, by decide, by decide⟩

/-- Claim C3 (amended): emitting the structured log representation of an
error with a stack handle includes a `stacktrace` field exactly when the
handle's cached formatted text is already non-empty (i.e. only after a prior
`StackTrace` call produced it), and the field's value is that cached text;
log emission itself never invokes `FormatStack` — the models read the cached
field and take no frame resolver at all. -/
theorem logFields_stacktrace_only_when_formatted (m : String)
    (md : List (String × String)) (en : stackCacheEntry)
    (hmd : ∀ p ∈ md, p.1 ≠ "stacktrace") :
    ((∃ s, ("stacktrace", s) ∈ logFields (some (.zerr m none (some en) md)))
        ↔ en.formatted ≠ "")
    ∧ (∀ s, ("stacktrace", s) ∈ logFields (some (.zerr m none (some en) md))
        → s = en.formatted)
    ∧ ((∃ s, ("stacktrace", s) ∈ LogValue m none (some en) md)
        ↔ en.formatted ≠ "")
    ∧ (∀ s, ("stacktrace", s) ∈ LogValue m none (some en) md
        → s = en.formatted) := by
  have hlf : logFields (some (.zerr m none (some en) md))
      = md ++ (if en.formatted ≠ "" then [("stacktrace", en.formatted)] else []) := by
    by_cases h : en.formatted = "" <;> simp [logFields, logFieldsErr, h]
  have hlv : LogValue m none (some en) md
      = (("msg", m) :: md)
        ++ (if en.formatted ≠ "" then [("stacktrace", en.formatted)] else []) := by
    by_cases h : en.formatted = "" <;> simp [LogValue, h]
  rw [hlf, hlv]
  by_cases h : en.formatted = ""
  · have hcond : ¬(en.formatted ≠ "") := by simpa using h
    rw [if_neg hcond]
    refine ⟨?_, ?_, ?_, ?_⟩
    · simp only [List.append_nil]
      constructor
      · rintro ⟨s, hs⟩
        exact absurd rfl (hmd _ hs)
      · intro hf
        exact absurd h hf
    · intro s hs
      rw [List.append_nil] at hs
      exact absurd rfl (hmd _ hs)
    · simp only [List.append_nil]
      constructor
      · rintro ⟨s, hs⟩
        rcases List.mem_cons.mp hs with h1 | h1
        · simp at h1
        · exact absurd rfl (hmd _ h1)
      · intro hf
        exact absurd h hf
    · intro s hs
      rw [List.append_nil] at hs
      rcases List.mem_cons.mp hs with h1 | h1
      · simp at h1
      · exact absurd rfl (hmd _ h1)
  · have hcond : en.formatted ≠ "" := h
    rw [if_pos hcond]
    refine ⟨?_, ?_, ?_, ?_⟩
    · constructor
      · intro _; exact h
      · intro _
        exact ⟨en.formatted, List.mem_append_right _ (List.mem_singleton.mpr rfl)⟩
    · intro s hs
      rcases List.mem_append.mp hs with h1 | h1
      · exact absurd rfl (hmd _ h1)
      · cases List.mem_singleton.mp h1
        rfl
    · constructor
      · intro _; exact h
      · intro _
        exact ⟨en.formatted, List.mem_append_right _ (List.mem_singleton.mpr rfl)⟩
    · intro s hs
      rcases List.mem_append.mp hs with h1 | h1
      · rcases List.mem_cons.mp h1 with h2 | h2
        · simp at h2
        · exact absurd rfl (hmd _ h2)
      · cases List.mem_singleton.mp h1
        rfl

/-- Witness for the amended C3: on an entry whose text was already formatted
to "txt", the stacktrace field is present. -/
theorem logFields_stacktrace_only_when_formatted_witness :
    ∃ s, ("stacktrace", s)
      ∈ logFields (some (.zerr "m" none (some ⟨0, [1], "txt", true⟩) [("k", "v")])) :=
  ((logFields_stacktrace_only_when_formatted "m" [("k", "v")] ⟨0, [1], "txt", true⟩
      (by decide)).1).mpr (by decide)

/-!  The event traces: buffer-pool and locking discipline. -/

theorem insertStack_trace (pcs : List Nat) (hash cap : Nat) (st : CacheState)
    (interfere : CacheMap → CacheMap) (evs : List Ev)
    (h0 : Ev.poolPut ∉ evs) (h1 : Ev.fingerprintEv ∈ evs) :
    ∃ l, (insertStack pcs hash cap st interfere evs).2.2 = l ++ [Ev.poolPut]
      ∧ Ev.poolPut ∉ l ∧ Ev.fingerprintEv ∈ l ∧ Ev.copyEv ∈ l := by
  unfold insertStack
  cases hfind : mapFind (interfere st.stackCache) hash with
  | none =>
    simp only [hfind]
    refine ⟨evs ++ [Ev.copyEv, Ev.lock, Ev.mapRead, Ev.mapWrite, Ev.unlock], ?_, ?_, ?_, ?_⟩
    · simp
    · simp [List.mem_append, h0]
    · simp [List.mem_append, h1]
    · simp [List.mem_append]
  | some entries =>
    cases hre : (rescanCompact entries pcs).2.1 with
    | some e =>
      simp only [hfind, hre]
      refine ⟨evs ++ [Ev.copyEv, Ev.lock, Ev.mapRead]
          ++ List.replicate (rescanCompact entries pcs).2.2 Ev.compareEv
          ++ [Ev.mapWrite, Ev.unlock], ?_, ?_, ?_, ?_⟩
      · simp
      · simp [List.mem_append, List.mem_replicate, h0]
      · simp [List.mem_append, h1]
      · simp [List.mem_append]
    | none =>
      simp only [hfind, hre]
      refine ⟨evs ++ [Ev.copyEv, Ev.lock, Ev.mapRead]
          ++ List.replicate (rescanCompact entries pcs).2.2 Ev.compareEv
          ++ [Ev.mapWrite, Ev.mapWrite, Ev.unlock], ?_, ?_, ?_, ?_⟩
      · simp
      · simp [List.mem_append, List.mem_replicate, h0]
      · simp [List.mem_append, h1]
      · simp [List.mem_append]

theorem gocPCs_trace (pcs : List Nat) (cap : Nat) (st : CacheState)
    (interfere : CacheMap → CacheMap) :
    ∃ l, (getOrCreateStackPCs pcs cap st interfere).2.2 = l ++ [Ev.poolPut]
      ∧ Ev.poolPut ∉ l ∧ Ev.fingerprintEv ∈ l
      ∧ ((getOrCreateStackPCs pcs cap st interfere).2.1.nextId ≠ st.nextId
          → Ev.copyEv ∈ l) := by
  unfold getOrCreateStackPCs
  cases hfind : mapFind st.stackCache (fingerprint pcs) with
  | none =>
    simp only [hfind]
    obtain ⟨l, hl, h2, h3, h4⟩ := insertStack_trace pcs (fingerprint pcs) cap st
      interfere [Ev.fingerprintEv, Ev.rlock, Ev.mapRead, Ev.runlock]
      (by simp) (by simp)
    exact ⟨l, hl, h2, h3, fun _ => h4⟩
  | some entries =>
    cases hscan : (scanChain entries pcs).1 with
    | some e =>
      simp only [hfind, hscan]
      refine ⟨[Ev.fingerprintEv, Ev.rlock, Ev.mapRead, Ev.runlock]
          ++ List.replicate (scanChain entries pcs).2 Ev.compareEv, ?_, ?_, ?_, ?_⟩
      · simp
      · simp [List.mem_append, List.mem_replicate]
      · simp
      · intro hid
        exact absurd rfl hid
    | none =>
      simp only [hfind, hscan]
      obtain ⟨l, hl, h2, h3, h4⟩ := insertStack_trace pcs (fingerprint pcs) cap st
        interfere ([Ev.fingerprintEv, Ev.rlock, Ev.mapRead, Ev.runlock]
          ++ List.replicate (scanChain entries pcs).2 Ev.compareEv)
        (by simp [List.mem_append, List.mem_replicate]) (by simp)
      exact ⟨l, hl, h2, h3, fun _ => h4⟩

/-- Claim C8: on every execution path of `getOrCreateStack` — fast-path hit,
write-lock race loss, and new-entry insertion, under arbitrary interference
from other goroutines — the pooled buffer is returned exactly once
(`poolPut` occurs once and is the last event), only after the capture and the
fingerprinting, and, whenever a candidate entry was allocated (the paths that
copy the buffer into an entry's own sequence), only after that copy. -/
theorem getOrCreateStack_pool_discipline (frames : List Nat) (st : CacheState)
    (interfere : CacheMap → CacheMap) :
    ∃ l, (getOrCreateStack frames st interfere).2.2 = l ++ [Ev.poolPut]
      ∧ Ev.poolPut ∉ l
      ∧ Ev.callers ∈ l ∧ Ev.fingerprintEv ∈ l
      ∧ ((getOrCreateStack frames st interfere).2.1.nextId ≠ st.nextId
          → Ev.copyEv ∈ l) := by
  obtain ⟨l, hl, h2, h3, h4⟩ := gocPCs_trace (captureStack st.poolCap frames).1
    (captureStack st.poolCap frames).2 st interfere
  refine ⟨Ev.poolGet :: Ev.callers :: l, ?_, ?_, ?_, ?_, ?_⟩
  · show Ev.poolGet :: Ev.callers :: (getOrCreateStackPCs _ _ _ _).2.2 = _
    rw [hl]
    rfl
  · simp [h2]
  · simp
  · simp [h3]
  · intro hid
    have := h4 hid
    simp [this]

/-- Claim C9 fails on the code (code bug): in the fast path the read lock is
released (line 160) BEFORE the chain scan of lines 162-175, so the
element-by-element comparison of bucket entries runs with no lock held and
can overlap a write-lock compaction that rewrites the same chain's backing
array in place (`activeEntries := entries[:0]`).  The concrete trace below —
a cache whose bucket for `fingerprint [1,2]` holds one live matching entry —
shows `runlock` strictly before the `compareEv` event, and no write lock
taken at all. -/
theorem fastpath_compare_after_runlock :
    (getOrCreateStack [1, 2]
        ⟨[(fingerprint [1, 2], [some ⟨0, [1, 2], "", false⟩])], 1, 128⟩
        noInterfere).2.2
      = [Ev.poolGet, Ev.callers, Ev.fingerprintEv, Ev.rlock, Ev.mapRead,
         Ev.runlock, Ev.compareEv, Ev.poolPut]
    ∧ Ev.lock ∉ (getOrCreateStack [1, 2]
        ⟨[(fingerprint [1, 2], [some ⟨0, [1, 2], "", false⟩])], 1, 128⟩
        noInterfere).2.2 :=
  ⟨by decide, by decide⟩

end Zerr
